import Mathlib

/-!
Verification development for the mongoengine query/cursor engine and the
field/change-tracking subsystem (src/mongoengine).

The Python source is shallowly embedded: each relevant method of
`QuerySet` (src/mongoengine/queryset/queryset.py) and `BaseDocument`
(src/mongoengine/base/document.py) becomes an executable Lean function over
explicit data.  Python dictionaries become association lists, Python
exceptions become `Except` / explicit outcome types, and the external
data source (a MongoDB collection) becomes a plain list of documents.
-/

set_option maxHeartbeats 1000000

namespace Mongo

/-- Python values as they occur in queries, documents and field defaults.
Covers the cases the embedded code paths inspect: `None`, booleans,
integers and strings; `opv` represents an operator sub-dictionary such as
`{"$in": [...]}` used as a query condition value. -/
inductive PyVal where
  | none
  | bool (b : Bool)
  | int (n : Int)
  | str (s : String)
  | opv (o : String) (args : List String)
  deriving DecidableEq, Repr

/-- Python truthiness for the embedded values (`if value:`). -/
def PyVal.truthy : PyVal → Bool
  | .none => false
  | .bool b => b
  | .int n => n != 0
  | .str s => s != ""
  | .opv _ _ => true

/-- Embeds `isinstance(value, (numbers.Number, bool))` for the embedded values. -/
def PyVal.isNumOrBool : PyVal → Bool
  | .bool _ => true
  | .int _ => true
  | _ => false

/-- A stored document (or a plain mongo sub-dictionary): association list
from storage field name to value. -/
abbrev PyDict := List (String × PyVal)

/-- Dictionary lookup, `d.get(k)` returning `none` when absent. -/
def dictGet (d : PyDict) (k : String) : Option PyVal :=
  (d.find? (fun kv => kv.1 == k)).map (·.2)

/-- Membership test, `k in d`. -/
def dictHas (d : PyDict) (k : String) : Bool :=
  d.any (fun kv => kv.1 == k)

/-- Python dictionary assignment `d[k] = v`: replaces the value when the
key exists, appends otherwise. -/
def dictSet (d : PyDict) (k : String) (v : PyVal) : PyDict :=
  if dictHas d k then
    d.map (fun kv => if kv.1 == k then (k, v) else kv)
  else
    d ++ [(k, v)]

/-- Python `d.update(other)`: assign every pair of `other` into `d`. -/
def dictUpdate (d other : PyDict) : PyDict :=
  other.foldl (fun acc kv => dictSet acc kv.1 kv.2) d

/-- A conjunction of equality conditions matches a document when every
listed key is present with the listed value (the mongo matching
semantics for a flat filter dictionary). -/
def matchPairs (doc : PyDict) (conds : PyDict) : Bool :=
  conds.all (fun kv => dictGet doc kv.1 == some kv.2)

end Mongo

namespace Mongo.Engine

/-- Errors raised by the write paths of `QuerySet`
(src/mongoengine/errors via queryset.py). -/
inductive OpError where
  | operationError (msg : String)
  deriving DecidableEq, Repr

/-- The configuration snapshot of a `QuerySet`
(`QuerySet.__init__`, src/mongoengine/queryset/queryset.py:47-80),
restricted to the state the embedded methods read or write.
`resultCache`, `hasMore` and `lenCache` are the mutable iteration cache,
the rest is chain configuration. -/
structure QS where
  queryObj : PyDict
  initialQuery : PyDict
  loadedFields : List (String × Bool)
  ordering : Option (List String)
  limit : Option Int
  skip : Option Int
  noneFlag : Bool
  classCheck : Bool
  scalar : List String
  asPymongo : Bool
  timeoutFlag : Bool
  resultCache : List PyDict
  hasMore : Bool
  lenCache : Option Nat
  -- document metadata consulted by the methods
  className : String
  subclasses : List String
  allowInheritance : Bool
  deriving DecidableEq, Repr

/-- Embeds `QuerySet.clone` (queryset.py:723-746): a fresh instance receives the
copied configuration properties listed in `copy_props`; the result cache,
`_has_more` and `_len` are those of a fresh instance (empty / `True` /
`None`). -/
def clone (s : QS) : QS :=
  { s with resultCache := [], hasMore := true, lenCache := none }

/-- Embeds `QuerySet._query` (queryset.py:1174-1179) for the flat-conjunction
fragment: the mongo query of the Q-object, updated with the initial class
query when class checking is on. -/
def mongoQueryOf (s : QS) : PyDict :=
  if s.classCheck then dictUpdate s.queryObj s.initialQuery else s.queryObj

/-- Embeds `QuerySet.__call__` (queryset.py:82-119): clone, AND the new query onto
the existing tree, reset the cached mongo query / cursor, set class
checking. -/
def callOp (s : QS) (extra : PyDict) (classCheck : Bool := true) : QS :=
  let queryset := clone s
  { queryset with
      queryObj := dictUpdate queryset.queryObj extra,
      classCheck := classCheck }

/-- Embeds `QuerySet.limit` (queryset.py:760-773): clone, apply the limit to the
underlying cursor (for `n == 0` the pymongo cursor is given limit 1, but
`_limit` is recorded as 0 and `__next__` short-circuits), record `_limit`. -/
def limitOp (s : QS) (n : Int) : QS :=
  let queryset := clone s
  { queryset with limit := some n }

/-- Embeds `QuerySet.skip` (queryset.py:775-784). -/
def skipOp (s : QS) (n : Int) : QS :=
  let queryset := clone s
  { queryset with skip := some n }

/-- Embeds `QuerySet.order_by` (queryset.py:927-937). -/
def orderByOp (s : QS) (keys : List String) : QS :=
  let queryset := clone s
  { queryset with ordering := some keys }

/-- The window of raw documents the underlying pymongo cursor yields for
this queryset (`QuerySet._cursor`, queryset.py:1129-1168): the documents
matching `_query`, after skip and limit.  A pymongo limit of 0 means
"no limit"; the queryset-level guard for `_limit == 0` lives in
`__next__`, not here. -/
def fetchWindow (s : QS) (docs : List PyDict) : List PyDict :=
  let matched := docs.filter (fun d => matchPairs d (mongoQueryOf s))
  let afterSkip :=
    match s.skip with
    | Option.none => matched
    | some k => matched.drop k.toNat
  match s.limit with
  | Option.none => afterSkip
  | some l => if l = 0 then afterSkip else afterSkip.take l.toNat

/-- Embeds `QuerySet.__next__` (queryset.py:1087-1101) at cursor position `pos`:
raises `StopIteration` (here `none`) when `_limit == 0` or the none flag
is set, otherwise pulls the next raw document from the cursor. -/
def nextAt (s : QS) (docs : List PyDict) (pos : Nat) : Option PyDict :=
  if s.limit = some 0 || s.noneFlag then Option.none
  else (fetchWindow s docs)[pos]?

/-- Driving `__next__` until `StopIteration`: the documents an iteration
of the queryset yields, with fuel bounding the pulls. -/
def iterFrom (s : QS) (docs : List PyDict) : Nat → Nat → List PyDict
  | 0, _ => []
  | fuel + 1, pos =>
    match nextAt s docs pos with
    | Option.none => []
    | some d => d :: iterFrom s docs fuel (pos + 1)

/-- All documents yielded by iterating the queryset. -/
def qsResults (s : QS) (docs : List PyDict) : List PyDict :=
  iterFrom s docs (docs.length + 1) 0

/-- Embeds `QuerySet.count` (queryset.py:411-443) with the default
`with_limit_and_skip=True`.  Returns the count and whether a query was
issued against the data source (`estimated_document_count`). -/
def countOp (s : QS) (docs : List PyDict) : Nat × Bool :=
  if s.limit = some 0 then (0, false)
  else if s.noneFlag then (0, false)
  else
    match s.lenCache with
    | some l => (l, false)
    | Option.none => ((fetchWindow s docs).length, true)

/-- Embeds `QuerySet.__init__` (queryset.py:47-80): the fresh configuration of a
queryset bound to a document type.  When inheritance is allowed the
initial query restricts `_cls` (a plain value for a single subclass, a
`$in` condition otherwise) and `_cls` is always included in projections. -/
def initQS (className : String) (subclasses : List String)
    (allowInheritance : Bool) : QS :=
  { queryObj := [],
    initialQuery :=
      if allowInheritance then
        match subclasses with
        | [c] => [("_cls", PyVal.str c)]
        | cs => [("_cls", PyVal.opv "$in" cs)]
      else [],
    loadedFields := if allowInheritance then [("_cls", true)] else [],
    ordering := Option.none,
    limit := Option.none,
    skip := Option.none,
    noneFlag := false,
    classCheck := true,
    scalar := [],
    asPymongo := false,
    timeoutFlag := true,
    resultCache := [],
    hasMore := true,
    lenCache := Option.none,
    className := className,
    subclasses := subclasses,
    allowInheritance := allowInheritance }

/-- The exception a slice access can surface. -/
inductive SliceErr where
  | indexError
  deriving DecidableEq, Repr

/-- Python truthiness of an optional integer (for `if key.start and
key.stop:`): `None` and `0` are falsy. -/
def optIntTruthy : Option Int → Bool
  | Option.none => false
  | some n => n != 0

/-- The pymongo cursor slice access `cursor[start:stop:step]`, as
documented by the comment at queryset.py:189-190: the driver refuses slice
steps, negative bounds, and a window whose computed limit
`stop - (start or 0)` is not positive (in particular `start == stop`),
raising `IndexError`. -/
def cursorApplySlice (start stop step : Option Int) :
    Except SliceErr (Option Int × Option Int) :=
  if step.isSome then .error .indexError
  else
    let skip := start.getD 0
    if skip < 0 then .error .indexError
    else
      match stop with
      | Option.none => .ok (start, Option.none)
      | some st =>
        if st - skip ≤ 0 then .error .indexError
        else .ok (start, some (st - skip))

/-- Embeds `QuerySet.__getitem__` with a slice key (queryset.py:176-200): clone,
try to slice the underlying cursor, record skip/limit; when pymongo
raises `IndexError` on a zero-width slice with non-negative bounds and no
step, swallow the error and return a queryset whose `_limit` is zero. -/
def getitemSlice (s : QS) (start stop step : Option Int) :
    Except SliceErr QS :=
  let queryset := clone s
  match cursorApplySlice start stop step with
  | .ok _ =>
    let queryset := { queryset with skip := start, limit := stop }
    let queryset :=
      if optIntTruthy start && optIntTruthy stop then
        { queryset with limit := some (stop.getD 0 - start.getD 0) }
      else queryset
    .ok queryset
  | .error err =>
    let st := start.getD 0
    let stopOk := match stop with
      | some v => decide (0 ≤ v)
      | Option.none => false   -- Python 2: None >= 0 is False
    if 0 ≤ st && stopOk && step.isNone then
      if some st = stop then
        -- queryset.limit(0) produces a discarded clone; the receiver is
        -- then updated in place:
        .ok { queryset with skip := start, limit := some (stop.getD 0 - st) }
      else .error err
    else .error err

/-- The mongo update document: operator name to field assignments. -/
abbrev UpdateDoc := List (String × PyDict)

/-- The update operation as handed to the data source
(`collection.update_one` / `update_many`). -/
structure UpdateCall where
  query : PyDict
  updateDoc : UpdateDoc
  upsert : Bool
  multi : Bool
  deriving DecidableEq, Repr

/-- Embeds `QuerySet.update` (queryset.py:504-543) up to the data-source call.
The translation of Django-style modifiers into a mongo update document is
`transform.update` from the absent queryset/transform.py module and is
taken as the parameter `transf`.  The guard against an empty update runs
before anything else; for an upsert on an inheritable class `_cls` is
injected into the `$set` clause. -/
def updateOp (s : QS) (upsert multi : Bool) (update : PyDict)
    (transf : PyDict → UpdateDoc) : Except OpError UpdateCall :=
  if update.isEmpty && !upsert then
    .error (.operationError "No update parameters, would remove data")
  else
    let queryset := clone s
    let query := mongoQueryOf queryset
    let upd := transf update
    let upd :=
      if upsert && dictHas query "_cls" then
        if upd.any (fun kv => kv.1 == "$set") then
          upd.map (fun kv =>
            if kv.1 == "$set" then
              ("$set", dictSet kv.2 "_cls" (PyVal.str queryset.className))
            else kv)
        else upd ++ [("$set", [("_cls", PyVal.str queryset.className)])]
      else upd
    .ok { query := query, updateDoc := upd, upsert := upsert, multi := multi }

/-- The outcome of `QuerySet.get`: the unique document, or one of the two
type-scoped cardinality errors. -/
inductive GetOutcome where
  | ok (d : PyDict)
  | doesNotExist (className : String)
  | multipleObjectsReturned (n : Nat)
  deriving DecidableEq, Repr

/-- Embeds `QuerySet.get` (queryset.py:237-261): filter with the criteria, drop
any ordering, limit the underlying fetch to 2, pull up to two results;
no result raises `DoesNotExist`, a second result raises
`MultipleObjectsReturned` carrying the (limit-bounded) count. -/
def getOp (s : QS) (extra : PyDict) (docs : List PyDict) : GetOutcome :=
  let queryset := callOp s extra
  let queryset := limitOp (orderByOp queryset []) 2
  match nextAt queryset docs 0 with
  | Option.none => .doesNotExist queryset.className
  | some result =>
    match nextAt queryset docs 1 with
    | Option.none => .ok result
    | some _ => .multipleObjectsReturned (countOp queryset docs).1

/-- The documents of the data source matched by `get`-style filtering,
before any limit. -/
def getMatches (s : QS) (extra : PyDict) (docs : List PyDict) :
    List PyDict :=
  docs.filter (fun d => matchPairs d (mongoQueryOf (callOp s extra)))

/-- Embeds `QuerySet.none` (queryset.py:680-684). -/
def noneOp (s : QS) : QS :=
  let queryset := clone s
  { queryset with noneFlag := true }

/-- Embeds `QuerySet.timeout` (queryset.py:958-967). -/
def timeoutOp (s : QS) (enabled : Bool) : QS :=
  let queryset := clone s
  { queryset with timeoutFlag := enabled }

/-- Embeds `QuerySet.as_pymongo` (queryset.py:1022-1032). -/
def asPymongoOp (s : QS) : QS :=
  let queryset := clone s
  { queryset with asPymongo := true }

/-- Embeds `QuerySet.clear_cls_query` (queryset.py:939-945). -/
def clearClsQueryOp (s : QS) : QS :=
  let queryset := clone s
  { queryset with initialQuery := [] }

/-- Embeds `QuerySet.fields` (queryset.py:876-912), reduced to accumulating
include/exclude markers.  Modelled from the spec for the merge itself:
`QueryFieldList` (queryset/field_list.py) is absent from the sources, and
the spec describes the projection set as a union-merge of entries. -/
def fieldsOp (s : QS) (fs : List (String × Bool)) : QS :=
  let queryset := clone s
  { queryset with loadedFields := queryset.loadedFields ++ fs }

/-- Embeds `QuerySet.only` (queryset.py:835-854). -/
def onlyOp (s : QS) (fs : List String) : QS :=
  fieldsOp s (fs.map (fun f => (f, true)))

/-- Embeds `QuerySet.exclude` (queryset.py:856-874). -/
def excludeOp (s : QS) (fs : List String) : QS :=
  fieldsOp s (fs.map (fun f => (f, false)))

/-- Embeds `QuerySet.all_fields` (queryset.py:914-925): reset the projection to
its always-include entries. -/
def allFieldsOp (s : QS) : QS :=
  let queryset := clone s
  { queryset with
      loadedFields := queryset.loadedFields.filter (fun kv => kv.1 == "_cls") }

/-- Embeds `QuerySet.scalar` (queryset.py:995-1016). -/
def scalarOp (s : QS) (fs : List String) : QS :=
  let queryset := clone s
  let queryset := { queryset with scalar := fs }
  if fs.isEmpty then allFieldsOp queryset else onlyOp queryset fs

/-- Embeds `QuerySet.no_sub_classes` (queryset.py:686-693): when inheritance is
allowed this method assigns `self._initial_query` on the receiver itself
and returns `self` — no clone is taken.  The first component is the
receiver after the call, the second the returned queryset. -/
def noSubClassesOp (s : QS) : QS × QS :=
  if s.allowInheritance then
    let s2 := { s with initialQuery := [("_cls", PyVal.str s.className)] }
    (s2, s2)
  else (s, s)

/-- Embeds `QuerySet.only_classes` (queryset.py:695-707). -/
def onlyClassesOp (s : QS) (classNames : List String) : QS × QS :=
  if s.allowInheritance then
    let queryset := clone s
    let allowed := s.subclasses.filter (fun n => classNames.contains n)
    let queryset := { queryset with initialQuery :=
      match allowed with
      | [c] => [("_cls", PyVal.str c)]
      | cs => [("_cls", PyVal.opv "$in" cs)] }
    (s, queryset)
  else (s, s)

/-- Embeds `QuerySet.exclude_classes` (queryset.py:709-721). -/
def excludeClassesOp (s : QS) (classNames : List String) : QS × QS :=
  if s.allowInheritance then
    let queryset := clone s
    let allowed := s.subclasses.filter (fun n => classNames.contains n)
    let queryset := { queryset with initialQuery :=
      match allowed with
      | [c] => [("_cls", PyVal.opv "$ne" [c])]
      | cs => [("_cls", PyVal.opv "$nin" cs)] }
    (s, queryset)
  else (s, s)

/-- The chainable configuration calls of the cursor surface.  Each is
dispatched by `applyChain` to the embedded method; the result is the pair
(receiver after the call, returned queryset). -/
inductive ChainOp where
  | call (extra : PyDict) (classCheck : Bool)
  | limitN (n : Int)
  | skipN (n : Int)
  | orderBy (keys : List String)
  | noneC
  | timeoutC (b : Bool)
  | scalarC (fs : List String)
  | asPymongoC
  | clearClsQueryC
  | onlyC (fs : List String)
  | excludeC (fs : List String)
  | allFieldsC
  | noSubClassesC
  | onlyClassesC (cs : List String)
  | excludeClassesC (cs : List String)
  deriving DecidableEq, Repr

/-- Dispatch a chain call on a queryset, reporting both the state of the
receiver after the call and the returned queryset. -/
def applyChain (op : ChainOp) (s : QS) : QS × QS :=
  match op with
  | .call extra cc => (s, callOp s extra cc)
  | .limitN n => (s, limitOp s n)
  | .skipN n => (s, skipOp s n)
  | .orderBy ks => (s, orderByOp s ks)
  | .noneC => (s, noneOp s)
  | .timeoutC b => (s, timeoutOp s b)
  | .scalarC fs => (s, scalarOp s fs)
  | .asPymongoC => (s, asPymongoOp s)
  | .clearClsQueryC => (s, clearClsQueryOp s)
  | .onlyC fs => (s, onlyOp s fs)
  | .excludeC fs => (s, excludeOp s fs)
  | .allFieldsC => (s, allFieldsOp s)
  | .noSubClassesC => noSubClassesOp s
  | .onlyClassesC cs => onlyClassesOp s cs
  | .excludeClassesC cs => excludeClassesOp s cs

end Mongo.Engine

namespace Mongo.Qsimp

open Mongo

/-- A mongo query dictionary as inspected by `QuerySet._query`
(queryset.py:1174-1194): ordinary key/condition pairs, plus an optional
`$and` entry holding a list of sub-dictionaries (`isSome` models the
membership test of the $and key in self._mongo_query). -/
structure MongoQuery where
  pairs : PyDict
  andClause : Option (List PyDict)
  deriving DecidableEq, Repr

/-- The `$and` simplification of `QuerySet._query` (queryset.py:1181-1193):
when the query holds a `$and` entry, compare the number of distinct keys
(the parent keys without `$and`, union all children keys) against the
total number of keys; when they agree — no duplicates among children and
no intersection with the parent — pop the `$and` and merge every child
into the parent dictionary. -/
def simplifyAnd (q : MongoQuery) : MongoQuery :=
  match q.andClause with
  | Option.none => q
  | some children =>
    let parentKeys := q.pairs.map Prod.fst
    let childrenKeys := (children.map (fun c => c.map Prod.fst)).flatten
    if (parentKeys ++ childrenKeys).dedup.length
        = parentKeys.length + childrenKeys.length then
      { pairs := children.foldl dictUpdate q.pairs, andClause := Option.none }
    else q

/-- Matching semantics of a query with an optional `$and` clause: the
plain pairs must match and every `$and` child must match. -/
def matchQuery (doc : PyDict) (q : MongoQuery) : Bool :=
  matchPairs doc q.pairs && (q.andClause.getD []).all (fun c => matchPairs doc c)

end Mongo.Qsimp

namespace Mongo.Delta

open Mongo

/-- The declared default of a field (base/fields.py:22-38): either a plain
value (`PyVal.none` when no default is declared) or a callable factory
whose result is recorded. -/
inductive PyDefault where
  | plain (v : PyVal)
  | factory (v : PyVal)
  deriving DecidableEq, Repr

/-- Resolution of a declared default before the comparison
(document.py:407-409): `if default is not None: if callable(default):
default = default()`.  A plain default is used as-is; a factory is a
callable object (never `None`), so it is called. -/
def resolveDefault : PyDefault → PyVal
  | .plain v => v
  | .factory v => v

/-- A document instance as `BaseDocument._delta` sees it: the per-field
declared defaults (the schema), the live storage-level values
(`_full_delta()[0]`), and the explicitly changed storage paths
(`_get_changed_fields`).  The model covers a non-dynamic document with
top-level storage paths. -/
structure DeltaDoc where
  fields : List (String × PyDefault)
  values : PyDict
  changed : List String
  deriving DecidableEq, Repr

/-- The first phase of `_delta` (document.py:345-365): each changed path
is resolved against the live document dictionary (`d.get(p)`, giving
Python `None` for a field missing from the set dictionary) to build the
tentative set map. -/
def setDataOf (doc : DeltaDoc) : PyDict :=
  doc.changed.map (fun p => (p, (dictGet doc.values p).getD PyVal.none))

/-- The resolved default consulted for a changed path
(document.py:376-409): a path naming a declared field uses the default
of that field, resolved by calling a callable; a path naming no field leaves
the initial `default = None` (the nested list/embedded lookup is outside
this top-level model). -/
def defaultFor (doc : DeltaDoc) (path : String) : PyVal :=
  match (doc.fields.find? (fun kv => kv.1 == path)).map (fun kv => kv.2) with
  | some d => resolveDefault d
  | Option.none => PyVal.none

/-- The second phase of `_delta` (document.py:371-415): every entry of the
set map whose value is truthy or a number/bool is kept; otherwise the
value is compared with the resolved default — `if default != value:
continue` keeps the entry in the set map, and on equality the path is
deleted from the set map and emitted in the unset map with value 1. -/
def deltaPhase2 (doc : DeltaDoc) : PyDict → PyDict × List (String × Nat)
  | [] => ([], [])
  | (p, v) :: rest =>
    let done := deltaPhase2 doc rest
    if v.truthy || v.isNumOrBool then ((p, v) :: done.1, done.2)
    else if defaultFor doc p ≠ v then ((p, v) :: done.1, done.2)
    else (done.1, (p, 1) :: done.2)

/-- Embeds `BaseDocument._delta` (document.py:337-417) for a non-dynamic document
with top-level changed paths: the (set, unset) pair. -/
def delta (doc : DeltaDoc) : PyDict × List (String × Nat) :=
  deltaPhase2 doc (setDataOf doc)

end Mongo.Delta

namespace Mongo.Lookup

/-- The declared field types `BaseDocument._lookup_field` distinguishes:
plain scalar fields, reference fields (no join may pass through them),
embedded-document fields carrying their sub-schema, and complex
(list-like) fields wrapping an inner field
(base/fields.py; the embedded/reference field classes live in the absent
mongoengine/fields.py and contribute only their declared sub-schema
here). -/
inductive FieldTy where
  | basic
  | reference
  | genericReference
  | embedded (sub : List (String × FieldTy))
  | listOf (inner : FieldTy)

/-- Embeds `lookup_member` on a field.  For a complex field this is
`ComplexBaseField.lookup_member` (base/fields.py:143-146): delegate to
the wrapped field.  Modelled from the spec for the embedded-document
field (mongoengine/fields.py is absent): the member is resolved against
the declared sub-schema; every other field resolves no members. -/
def lookupMember : FieldTy → String → Option FieldTy
  | .embedded sub, n => (sub.find? (fun kv => kv.1 == n)).map (fun kv => kv.2)
  | .listOf inner, n => lookupMember inner n
  | _, _ => Option.none

/-- Embeds `isinstance(field, (ReferenceField, GenericReferenceField))`
(document.py:193). -/
def isRef : FieldTy → Bool
  | .reference => true
  | .genericReference => true
  | _ => false

/-- Embeds `isinstance(field, ComplexBaseField)` (document.py:201). -/
def isComplex : FieldTy → Bool
  | .listOf _ => true
  | _ => false

/-- Embeds the test hasattr(getattr(field, "field", None), "lookup_member")
(document.py:196): only a complex field carries a `.field` attribute, and
the wrapped field exposes `lookup_member` when it is itself complex or an
embedded-document field. -/
def fieldAttrHasLookup : FieldTy → Bool
  | .listOf (.embedded _) => true
  | .listOf (.listOf _) => true
  | _ => false

/-- Python `field_name.isdigit()`: non-empty and all digit characters. -/
def isDigitSeg (s : String) : Bool :=
  !s.data.isEmpty && s.data.all Char.isDigit

/-- The errors the resolver can surface: `LookUpError` for an
unresolvable segment, `LookUpError` for a join through a reference, and
an attribute error for a numeric segment applied to a field without a
wrapped `.field`. -/
inductive LookupErr where
  | cannotResolve (name : String)
  | joinError (path : String)
  | attributeError

/-- An element of the returned parents-and-field list: a resolved field
descriptor or a raw segment (numeric index or unresolved complex
member). -/
inductive LookupEntry where
  | fld (f : FieldTy)
  | raw (s : String)

/-- Joins the path segments with double underscores for the join error message. -/
def joinParts (parts : List String) : String :=
  String.intercalate "__" parts

/-- The segment loop of `BaseDocument._lookup_field`
(document.py:160-209).  `field` is the previously resolved field (absent
before the first segment), `fields` the accumulated result list. -/
def lookupGo (schema : List (String × FieldTy)) (idField : String)
    (origPath : String) :
    List String → Option FieldTy → List LookupEntry →
    Except LookupErr (List LookupEntry)
  | [], _, fields => .ok fields
  | fieldName :: rest, field, fields =>
    if isDigitSeg fieldName then
      -- `new_field = field.field`: only a complex field has `.field`; the
      -- digit segment is appended as-is and `field` is left unchanged.
      match field with
      | some (.listOf _) =>
        lookupGo schema idField origPath rest field (fields ++ [.raw fieldName])
      | _ => .error .attributeError
    else
      match field with
      | Option.none =>
        let fieldName := if fieldName == "pk" then idField else fieldName
        match (schema.find? (fun kv => kv.1 == fieldName)).map (fun kv => kv.2) with
        | some f =>
          lookupGo schema idField origPath rest (some f) (fields ++ [.fld f])
        | Option.none => .error (.cannotResolve fieldName)
      | some f =>
        if isRef f then .error (.joinError origPath)
        else
          let newField :=
            if fieldAttrHasLookup f then
              match f with
              | .listOf inner => lookupMember inner fieldName
              | _ => Option.none
            else lookupMember f fieldName
          match newField with
          | Option.none =>
            if isComplex f then
              lookupGo schema idField origPath rest (some f)
                (fields ++ [.raw fieldName])
            else .error (.cannotResolve fieldName)
          | some nf =>
            lookupGo schema idField origPath rest (some nf) (fields ++ [.fld nf])

/-- Embeds `BaseDocument._lookup_field` (document.py:160-209) on an
already-split path. -/
def lookupField (schema : List (String × FieldTy)) (idField : String)
    (parts : List String) : Except LookupErr (List LookupEntry) :=
  lookupGo schema idField (joinParts parts) parts Option.none []

end Mongo.Lookup

namespace Mongo.Changed

open Mongo

/-- A field value as `_get_changed_fields` (document.py:287-335)
dispatches on it: an embedded document (by node index into the store), a
list of embedded documents, or a plain value (neither an embedded
document nor a container of them). -/
inductive FieldRef where
  | emb (ix : Nat)
  | lst (ixs : List Nat)
  | plainV (v : PyVal)
  deriving DecidableEq, Repr

/-- A document node of the in-memory object graph: the optional `id`
attribute (absent when the type declares no id field, per the hasattr
test), its own `_changed_fields`, and its fields in iteration order. -/
structure DocNode where
  idAttr : Option Nat
  changed : List String
  flds : List (String × FieldRef)
  deriving DecidableEq, Repr

/-- The object graph: nodes addressed by index, so cyclic embedded
graphs are representable. -/
structure Store where
  nodes : List DocNode
  deriving DecidableEq, Repr

mutual

/-- Embeds `BaseDocument._get_changed_fields` (document.py:287-335) on the node
graph, with fuel bounding the number of nested document visits; `none`
marks fuel exhaustion (the Python recursion not returning within the
given depth).  The result is the collected changed paths and the
inspected set, which the Python code mutates in place and shares across
the whole traversal. -/
def runDoc (st : Store) : Nat → Nat → List Nat →
    Option (List String × List Nat)
  | 0, _, _ => Option.none
  | fuel + 1, ix, inspected =>
    match st.nodes[ix]? with
    | Option.none => some ([], inspected)
    | some node =>
      match node.idAttr with
      | some i =>
        if i ∈ inspected then some (node.changed, inspected)
        else runFields st fuel node.flds node.changed (i :: inspected)
      | Option.none => runFields st fuel node.flds node.changed inspected

/-- The field loop of `_get_changed_fields` (document.py:305-334): for
each field value, first the hasattr(field, "id") guard (skip the field
when the id was already inspected, record it otherwise), then recursion
into an embedded document or into the elements of a container, guarded by
`db_field_name not in _changed_fields`. -/
def runFields (st : Store) (fuel : Nat) :
    List (String × FieldRef) → List String → List Nat →
    Option (List String × List Nat)
  | [], acc, insp => some (acc, insp)
  | (fname, fref) :: rest, acc, insp =>
    match fref with
    | .plainV _ => runFields st fuel rest acc insp
    | .emb cix =>
      match (st.nodes[cix]?).bind (fun c => c.idAttr) with
      | some i =>
        if i ∈ insp then runFields st fuel rest acc insp
        else
          if acc.contains fname then runFields st fuel rest acc (i :: insp)
          else
            match runDoc st fuel cix (i :: insp) with
            | Option.none => Option.none
            | some (childChanged, insp2) =>
              let key := fname ++ "."
              let adds := (childChanged.filter (fun k => !(k == ""))).map
                (fun k => key ++ k)
              runFields st fuel rest (acc ++ adds) insp2
      | Option.none =>
        if acc.contains fname then runFields st fuel rest acc insp
        else
          match runDoc st fuel cix insp with
          | Option.none => Option.none
          | some (childChanged, insp2) =>
            let key := fname ++ "."
            let adds := (childChanged.filter (fun k => !(k == ""))).map
              (fun k => key ++ k)
            runFields st fuel rest (acc ++ adds) insp2
    | .lst cixs =>
      if acc.contains fname then runFields st fuel rest acc insp
      else
        match runList st fuel fname 0 cixs acc insp with
        | Option.none => Option.none
        | some (acc2, insp2) => runFields st fuel rest acc2 insp2

/-- The container loop of `_get_changed_fields` (document.py:320-334):
recurse into each element under the key `field.index.`, threading the
shared inspected set; the elements carry their own top-of-call id
guard. -/
def runList (st : Store) (fuel : Nat) (fname : String) :
    Nat → List Nat → List String → List Nat →
    Option (List String × List Nat)
  | _, [], acc, insp => some (acc, insp)
  | idx, cix :: restIx, acc, insp =>
    match runDoc st fuel cix insp with
    | Option.none => Option.none
    | some (childChanged, insp2) =>
      let listKey := fname ++ "." ++ toString idx ++ "."
      let adds := (childChanged.filter (fun k => !(k == ""))).map
        (fun k => listKey ++ k)
      runList st fuel fname (idx + 1) restIx (acc ++ adds) insp2

end

/-- The public entry `_get_changed_fields()` on document `ix`: empty
inspected set, result projected to the changed paths. -/
def getChangedFields (st : Store) (fuel : Nat) (ix : Nat) :
    Option (List String) :=
  (runDoc st fuel ix []).map (fun r => r.1)

/-- The distinct id values occurring in the store. -/
def idsOf (st : Store) : List Nat :=
  (st.nodes.filterMap (fun n => n.idAttr)).dedup

/-- How many store ids are not yet in the inspected set: the measure that
shrinks whenever the traversal enters an id-bearing document. -/
def newIds (st : Store) (insp : List Nat) : Nat :=
  (idsOf st).countP (fun i => decide (i ∉ insp))

end Mongo.Changed

namespace Mongo.Del

open Mongo

/-- The delete rules (queryset.py:30-35). -/
inductive Rule where
  | doNothing
  | nullify
  | cascade
  | deny
  | pull
  deriving DecidableEq, Repr

/-- A document of a related type: its identity and the identities its
reference field currently holds (one entry for a plain reference, several
for a list-valued field). -/
structure RefDoc where
  id : Nat
  refs : List Nat
  deriving DecidableEq, Repr

/-- One registered delete-rule entry `(document_cls, field_name) -> rule`
(document.py `register_delete_rule`), together with the current contents
of the related collection and whether the related type is the deleted
type itself (the `doc != document_cls` test of the CASCADE branch). -/
structure RelEntry where
  clsName : String
  fieldName : String
  rule : Rule
  isSelf : Bool
  refDocs : List RefDoc
  deriving DecidableEq, Repr

/-- The state a `QuerySet.delete` can touch: the target collection (by
document identity) and the related collections with their rule
entries. -/
structure DB where
  target : List Nat
  rels : List RelEntry
  deriving DecidableEq, Repr

/-- Embeds the DENY reference count, document_cls.objects with the
field_name + __in filter, then count(): the
number of related documents whose reference field holds any matched
identity. -/
def refCount (matched : List Nat) (e : RelEntry) : Nat :=
  (e.refDocs.filter (fun d => d.refs.any (fun r => matched.contains r))).length

/-- The outcome of `QuerySet.delete` (queryset.py:445-502): delegation to
the per-document delete loop, a DENY abort carrying the untouched
database, or completion with the mutated database. -/
inductive DeleteOutcome where
  | perDocument
  | denied (db : DB) (err : Engine.OpError)
  | completed (db : DB)
  deriving DecidableEq, Repr

/-- The mutating second pass for one rule entry (queryset.py:484-499):
CASCADE deletes the referencing documents when any exist (the re-entrant
delete is the plain removal here: related types carry no rules of their
own in this model), NULLIFY unsets the reference field on referencing
documents, PULL removes the matched identities from the field. -/
def applyRule (matched : List Nat) (e : RelEntry) : RelEntry :=
  let refsMatched := fun (d : RefDoc) => d.refs.any (fun r => matched.contains r)
  match e.rule with
  | .cascade =>
    let cnt := refCount matched e
    if (!e.isSelf && decide (0 < cnt)) || (e.isSelf && decide (0 < cnt)) then
      { e with refDocs := e.refDocs.filter (fun d => !refsMatched d) }
    else e
  | .nullify =>
    { e with refDocs := e.refDocs.map (fun d =>
        if refsMatched d then { d with refs := [] } else d) }
  | .pull =>
    { e with refDocs := e.refDocs.map (fun d =>
        if refsMatched d then
          { d with refs := d.refs.filter (fun r => !(matched.contains r)) }
        else d) }
  | _ => e

/-- Embeds `QuerySet.delete` (queryset.py:445-502).  `hasDeleteSignal` abstracts
`signals.pre_delete/post_delete.has_receivers_for` (mongoengine/signals.py
is absent from the sources); when skip or limit is truthy or a signal
receiver exists, and the call does not come from a document delete, the
method delegates to the per-document delete loop.  Otherwise: a complete
DENY pass over all rule entries runs first and aborts before any write;
then the mutating pass over the rules; then the bulk delete of the
matched documents. -/
def deleteQS (db : DB) (matched : List Nat)
    (skip limit : Option Int) (hasDeleteSignal fromDocDelete : Bool) :
    DeleteOutcome :=
  if (Engine.optIntTruthy skip || Engine.optIntTruthy limit || hasDeleteSignal)
      && !fromDocDelete then
    .perDocument
  else
    match db.rels.find? (fun e =>
        e.rule == Rule.deny && decide (0 < refCount matched e)) with
    | some e =>
      .denied db (.operationError
        ("Could not delete document (" ++ e.clsName ++ "." ++ e.fieldName
          ++ " refers to it)"))
    | Option.none =>
      .completed
        { target := db.target.filter (fun i => !(matched.contains i)),
          rels := db.rels.map (applyRule matched) }

end Mongo.Del

namespace Mongo.Scenario

open Mongo Mongo.Engine

/-- A plain document type with no inheritance, used in concrete runs. -/
def qsPerson : QS := initQS "Person" [] false

/-- An inheritance-enabled document type with two registered subclasses. -/
def qsInherited : QS := initQS "Base" ["Base", "Sub"] true

/-- The seeded collection of the get() scenario. -/
def seedDocs : List PyDict :=
  [[("name", PyVal.str "a")], [("name", PyVal.str "a")],
   [("name", PyVal.str "b")]]

/-- A store holding a single id-less embedded document embedded in
itself. -/
def cycStore : Changed.Store :=
  { nodes := [{ idAttr := Option.none, changed := ["x"],
                flds := [("self", Changed.FieldRef.emb 0)] }] }

/-- A cyclic two-node graph whose documents both carry id attributes. -/
def cycIdStore : Changed.Store :=
  { nodes :=
      [{ idAttr := some 10, changed := ["x"],
         flds := [("other", Changed.FieldRef.emb 1)] },
       { idAttr := some 11, changed := ["y"],
         flds := [("back", Changed.FieldRef.emb 0),
                  ("items", Changed.FieldRef.lst [0, 1])] }] }

/-- The embedded-address schema of the field-resolution scenario:
`address` is an embedded document with a `zipcode` member, `ref` is a
reference field, `id` the primary key. -/
def addressSchema : List (String × Lookup.FieldTy) :=
  [("address", Lookup.FieldTy.embedded [("zipcode", Lookup.FieldTy.basic)]),
   ("ref", Lookup.FieldTy.reference),
   ("id", Lookup.FieldTy.basic)]

/-- A database with one DENY rule entry whose related collection holds a
document referencing a matched identity. -/
def denyDB : Del.DB :=
  { target := [1, 2],
    rels := [{ clsName := "Book", fieldName := "author",
               rule := Del.Rule.deny, isSelf := false,
               refDocs := [{ id := 7, refs := [2] }] }] }

end Mongo.Scenario

namespace Mongo.Engine

/-- Iteration of a queryset whose limit is zero or whose none flag is set
yields nothing: `__next__` raises `StopIteration` immediately. -/
theorem qsResults_of_guard (s : QS) (docs : List PyDict)
    (h : s.limit = some 0 ∨ s.noneFlag = true) :
    qsResults s docs = [] := by
  have hnext : nextAt s docs 0 = Option.none := by
    unfold nextAt
    rcases h with h | h <;> simp [h]
  unfold qsResults
  simp [iterFrom, hnext]

/-- The outcome of `get` is entirely determined by the first two documents matching the
combined criteria: the fetch window of `order_by().limit(2)`. -/
theorem getOp_characterization (s : QS) (extra : PyDict) (docs : List PyDict)
    (hskip : s.skip = Option.none) (hnone : s.noneFlag = false) :
    getOp s extra docs =
      match (getMatches s extra docs).take 2 with
      | [] => GetOutcome.doesNotExist s.className
      | [d] => GetOutcome.ok d
      | _ :: _ :: _ => GetOutcome.multipleObjectsReturned 2 := by
  have hwin : fetchWindow (limitOp (orderByOp (callOp s extra) []) 2) docs
      = (getMatches s extra docs).take 2 := by
    simp [fetchWindow, limitOp, orderByOp, callOp, clone, mongoQueryOf,
      getMatches, hskip]
  have hlim : (limitOp (orderByOp (callOp s extra) []) 2).limit = some 2 := rfl
  have hnf : (limitOp (orderByOp (callOp s extra) []) 2).noneFlag
      = s.noneFlag := rfl
  have hlen : (limitOp (orderByOp (callOp s extra) []) 2).lenCache
      = Option.none := rfl
  have hnext0 : ∀ p, nextAt (limitOp (orderByOp (callOp s extra) []) 2) docs p
      = ((getMatches s extra docs).take 2)[p]? := by
    intro p
    simp only [nextAt, hlim, hnf, hnone, hwin]
    simp
  have hcount : countOp (limitOp (orderByOp (callOp s extra) []) 2) docs
      = (((getMatches s extra docs).take 2).length, true) := by
    simp only [countOp, hlim, hnf, hnone, hlen, hwin]
    simp
  have hcls : (limitOp (orderByOp (callOp s extra) []) 2).className
      = s.className := rfl
  simp only [getOp]
  rw [hnext0 0, hnext0 1, hcount, hcls]
  rcases h2 : (getMatches s extra docs).take 2 with _ | ⟨a, _ | ⟨b, rest⟩⟩
  · rfl
  · rfl
  · have hle : ((getMatches s extra docs).take 2).length ≤ 2 :=
      List.length_take_le 2 _
    rw [h2] at hle
    simp only [List.length_cons] at hle
    have hrest : rest = [] := by
      cases rest with
      | nil => rfl
      | cons x xs => simp only [List.length_cons] at hle; omega
    subst hrest
    rfl

/-- C1: on a queryset with no skip window and the none flag clear, `get`
returns the unique matching document when exactly one document matches
the combined criteria, reports `DoesNotExist` when none does and
`MultipleObjectsReturned` when two or more do; and its outcome is fully
determined by the first two matching documents — the fetch is limited to
2 and decided by probing for a second result, not by an unbounded
count. -/
theorem get_cardinality_c1 (s : QS) (extra : PyDict) (docs : List PyDict)
    (hskip : s.skip = Option.none) (hnone : s.noneFlag = false) :
    (getMatches s extra docs = [] →
      getOp s extra docs = GetOutcome.doesNotExist s.className) ∧
    (∀ d, getMatches s extra docs = [d] →
      getOp s extra docs = GetOutcome.ok d) ∧
    (2 ≤ (getMatches s extra docs).length →
      getOp s extra docs = GetOutcome.multipleObjectsReturned 2) ∧
    (∀ docs2,
      (getMatches s extra docs2).take 2 = (getMatches s extra docs).take 2 →
      getOp s extra docs2 = getOp s extra docs) := by
  refine ⟨?_, ?_, ?_, ?_⟩
  · intro h
    rw [getOp_characterization s extra docs hskip hnone, h]
    rfl
  · intro d h
    rw [getOp_characterization s extra docs hskip hnone, h]
    rfl
  · intro h
    rw [getOp_characterization s extra docs hskip hnone]
    rcases h2 : (getMatches s extra docs).take 2 with _ | ⟨a, _ | ⟨b, rest⟩⟩
    · have := congrArg List.length h2
      simp only [List.length_take, List.length_nil] at this
      omega
    · have := congrArg List.length h2
      simp only [List.length_take, List.length_cons, List.length_nil] at this
      omega
    · rfl
  · intro docs2 h
    rw [getOp_characterization s extra docs hskip hnone,
      getOp_characterization s extra docs2 hskip hnone, h]

/-- C1 witness: the seeded scenario of the spec: documents
`[name:a, name:a, name:b]`; `get(name=a)` reports multiple objects,
`get(name=c)` reports `DoesNotExist`, `get(name=b)` returns exactly that
document. -/
theorem get_cardinality_c1_witness :
    getOp Scenario.qsPerson [("name", PyVal.str "a")] Scenario.seedDocs
      = GetOutcome.multipleObjectsReturned 2 ∧
    getOp Scenario.qsPerson [("name", PyVal.str "c")] Scenario.seedDocs
      = GetOutcome.doesNotExist "Person" ∧
    getOp Scenario.qsPerson [("name", PyVal.str "b")] Scenario.seedDocs
      = GetOutcome.ok [("name", PyVal.str "b")] := by
  refine ⟨?_, ?_, ?_⟩
  · exact (get_cardinality_c1 Scenario.qsPerson [("name", PyVal.str "a")]
      Scenario.seedDocs rfl rfl).2.2.1 (by decide)
  · exact (get_cardinality_c1 Scenario.qsPerson [("name", PyVal.str "c")]
      Scenario.seedDocs rfl rfl).1 (by decide)
  · exact (get_cardinality_c1 Scenario.qsPerson [("name", PyVal.str "b")]
      Scenario.seedDocs rfl rfl).2.1 [("name", PyVal.str "b")] (by decide)

/-- C3 counterexample: `no_sub_classes` is a chainable configuration call
(it returns a queryset for further chaining) that mutates the cursor it
was called on: on an inheritance-enabled queryset it reassigns the
initial class query of the receiver in place instead of cloning. -/
theorem chain_purity_c3_counterexample :
    (applyChain ChainOp.noSubClassesC Scenario.qsInherited).1
      ≠ Scenario.qsInherited := by decide

/-- C3 (amended): every chainable configuration call except
`no_sub_classes` leaves the receiver untouched — criterion tree,
projection set, ordering and result cache are identical before and after
the call — and `clone` copies the configuration while giving the new
cursor a fresh, empty result cache and length cache. -/
theorem chain_clone_purity_c3 (s : QS) (op : ChainOp)
    (hop : op ≠ ChainOp.noSubClassesC) :
    (applyChain op s).1 = s ∧
    (clone s).resultCache = [] ∧
    (clone s).lenCache = Option.none ∧
    (clone s).queryObj = s.queryObj ∧
    (clone s).initialQuery = s.initialQuery ∧
    (clone s).loadedFields = s.loadedFields ∧
    (clone s).ordering = s.ordering ∧
    (clone s).limit = s.limit ∧
    (clone s).skip = s.skip := by
  refine ⟨?_, rfl, rfl, rfl, rfl, rfl, rfl, rfl, rfl⟩
  cases op
  case noSubClassesC => exact absurd rfl hop
  case onlyClassesC cs =>
    show (onlyClassesOp s cs).1 = s
    unfold onlyClassesOp
    split <;> rfl
  case excludeClassesC cs =>
    show (excludeClassesOp s cs).1 = s
    unfold excludeClassesOp
    split <;> rfl
  all_goals rfl

/-- C3 witness: a concrete chain call on a concrete queryset leaves the
receiver untouched, and clone resets the cache. -/
theorem chain_clone_purity_c3_witness :
    (applyChain (ChainOp.limitN 5) Scenario.qsPerson).1 = Scenario.qsPerson ∧
    (clone Scenario.qsPerson).resultCache = [] ∧
    (clone Scenario.qsPerson).lenCache = Option.none ∧
    (clone Scenario.qsPerson).queryObj = Scenario.qsPerson.queryObj ∧
    (clone Scenario.qsPerson).initialQuery = Scenario.qsPerson.initialQuery ∧
    (clone Scenario.qsPerson).loadedFields = Scenario.qsPerson.loadedFields ∧
    (clone Scenario.qsPerson).ordering = Scenario.qsPerson.ordering ∧
    (clone Scenario.qsPerson).limit = Scenario.qsPerson.limit ∧
    (clone Scenario.qsPerson).skip = Scenario.qsPerson.skip :=
  chain_clone_purity_c3 Scenario.qsPerson (ChainOp.limitN 5) (by decide)

/-- C8: for every queryset and every non-negative `n`, the zero-width
slice `cursor[n:n]` is accepted (the pymongo `IndexError` is swallowed) and
produces a well-formed queryset whose recorded limit is zero and whose
iteration yields no documents. -/
theorem zero_width_slice_c8 (s : QS) (n : Nat) :
    ∃ q : QS,
      getitemSlice s (some (n : Int)) (some (n : Int)) Option.none
        = Except.ok q ∧
      q.limit = some 0 ∧ q.skip = some (n : Int) ∧
      ∀ docs, qsResults q docs = [] := by
  refine ⟨{ clone s with skip := some (n : Int), limit := some 0 },
    ?_, rfl, rfl, ?_⟩
  · have h0 : ¬((n : Int) < 0) := by omega
    have h1 : ((n : Int) - n ≤ 0) := by omega
    simp [getitemSlice, cursorApplySlice, h0, h1]
  · intro docs
    exact qsResults_of_guard _ docs (Or.inl rfl)

/-- C9: a queryset whose limit is explicitly zero or whose none flag is
set short-circuits `count()` to zero without touching the data source,
and its iteration yields no documents. -/
theorem count_short_circuit_c9 (s : QS) (docs : List PyDict)
    (h : s.limit = some 0 ∨ s.noneFlag = true) :
    countOp s docs = (0, false) ∧ qsResults s docs = [] := by
  constructor
  · unfold countOp
    rcases h with h | h
    · rw [h]; simp
    · rw [h]; simp
  · exact qsResults_of_guard s docs h

/-- C9 witness: `limit(0)` on a concrete queryset over a non-empty
collection counts zero without a fetch and yields nothing. -/
theorem count_short_circuit_c9_witness :
    countOp (limitOp Scenario.qsPerson 0) [[("name", PyVal.str "a")]]
      = (0, false) ∧
    qsResults (limitOp Scenario.qsPerson 0) [[("name", PyVal.str "a")]]
      = [] :=
  count_short_circuit_c9 (limitOp Scenario.qsPerson 0)
    [[("name", PyVal.str "a")]] (Or.inl rfl)

/-- C10: `update()` with no modifiers and `upsert` left False raises
`OperationError` before any data-source operation is attempted; with
`upsert` True or at least one modifier the guard does not fire and the
update call is handed to the data source. -/
theorem update_empty_guard_c10 (s : QS) (upsert multi : Bool)
    (update : PyDict) (transf : PyDict → UpdateDoc) :
    (update = [] → upsert = false →
      updateOp s upsert multi update transf
        = Except.error (OpError.operationError
            "No update parameters, would remove data")) ∧
    ((update ≠ [] ∨ upsert = true) →
      ∃ call, updateOp s upsert multi update transf = Except.ok call) := by
  constructor
  · intro h1 h2
    subst h1; subst h2
    rfl
  · intro h
    unfold updateOp
    have hcond : (update.isEmpty && !upsert) = false := by
      rcases h with h | h
      · cases update with
        | nil => exact absurd rfl h
        | cons a l => rfl
      · subst h; simp
    simp only [hcond]
    exact ⟨_, rfl⟩

/-- C10 witness: the empty update without upsert errors out; a one-field
update goes through to the data source. -/
theorem update_empty_guard_c10_witness :
    updateOp Scenario.qsPerson false true [] (fun u => [("$set", u)])
      = Except.error (OpError.operationError
          "No update parameters, would remove data") ∧
    ∃ call, updateOp Scenario.qsPerson false true
        [("name", PyVal.str "x")] (fun u => [("$set", u)])
      = Except.ok call :=
  ⟨(update_empty_guard_c10 Scenario.qsPerson false true []
      (fun u => [("$set", u)])).1 rfl rfl,
   (update_empty_guard_c10 Scenario.qsPerson false true
      [("name", PyVal.str "x")] (fun u => [("$set", u)])).2
      (Or.inl (by decide))⟩

end Mongo.Engine

namespace Mongo.Qsimp

open Mongo

theorem dictHas_eq_false {d : PyDict} {k : String}
    (h : k ∉ d.map Prod.fst) : dictHas d k = false := by
  rw [dictHas, List.any_eq_false]
  intro kv hkv he
  exact h (List.mem_map.mpr ⟨kv, hkv, beq_iff_eq.mp he⟩)

theorem dictSet_eq_append {d : PyDict} {k : String} {v : PyVal}
    (h : k ∉ d.map Prod.fst) : dictSet d k v = d ++ [(k, v)] := by
  rw [dictSet, dictHas_eq_false h]
  simp

/-- Merging a dictionary whose keys are fresh and distinct is plain
concatenation. -/
theorem dictUpdate_eq_append {child : PyDict} :
    ∀ {d : PyDict}, (child.map Prod.fst).Nodup →
    (∀ k ∈ child.map Prod.fst, k ∉ d.map Prod.fst) →
    dictUpdate d child = d ++ child := by
  induction child with
  | nil => intro d _ _; simp [dictUpdate]
  | cons kv rest ih =>
    intro d hnd hdisj
    obtain ⟨k, v⟩ := kv
    simp only [List.map_cons, List.nodup_cons] at hnd
    have hset : dictSet d k v = d ++ [(k, v)] :=
      dictSet_eq_append (hdisj k (by simp))
    show List.foldl (fun acc kv => dictSet acc kv.1 kv.2) d ((k, v) :: rest)
      = d ++ (k, v) :: rest
    rw [List.foldl_cons]
    have hrest : dictUpdate (dictSet d k v) rest
        = dictSet d k v ++ rest := by
      apply ih hnd.2
      intro k2 hk2
      rw [hset]
      simp only [List.map_append, List.mem_append]
      rintro (hin | hin)
      · exact hdisj k2 (by simp [hk2]) hin
      · simp only [List.map_cons, List.map_nil, List.mem_cons,
          List.not_mem_nil] at hin
        rcases hin with hin | hin
        · exact hnd.1 (hin ▸ hk2)
        · exact hin
    show dictUpdate (dictSet d k v) rest = d ++ (k, v) :: rest
    rw [hrest, hset]
    simp

/-- Folding `dict.update` over children with globally distinct fresh keys
is concatenation with the flattened children. -/
theorem foldl_dictUpdate_eq {children : List PyDict} :
    ∀ {d : PyDict},
    ((children.map (fun c => c.map Prod.fst)).flatten).Nodup →
    (∀ k ∈ (children.map (fun c => c.map Prod.fst)).flatten,
      k ∉ d.map Prod.fst) →
    children.foldl dictUpdate d = d ++ children.flatten := by
  induction children with
  | nil => intro d _ _; simp
  | cons c rest ih =>
    intro d hnd hdisj
    simp only [List.map_cons, List.flatten_cons] at hnd hdisj
    have hc : dictUpdate d c = d ++ c :=
      dictUpdate_eq_append hnd.of_append_left
        (fun k hk => hdisj k (List.mem_append_left _ hk))
    rw [List.foldl_cons, hc]
    have hrest : rest.foldl dictUpdate (d ++ c)
        = (d ++ c) ++ rest.flatten := by
      apply ih hnd.of_append_right
      intro k hk
      simp only [List.map_append, List.mem_append]
      rintro (hin | hin)
      · exact hdisj k (List.mem_append_right _ hk) hin
      · exact (List.disjoint_of_nodup_append hnd) hin hk
    rw [hrest]
    simp

theorem matchPairs_append (doc a b : PyDict) :
    matchPairs doc (a ++ b) = (matchPairs doc a && matchPairs doc b) := by
  simp [matchPairs, List.all_append]

theorem matchPairs_flatten (doc : PyDict) (L : List PyDict) :
    matchPairs doc L.flatten = L.all (fun c => matchPairs doc c) := by
  induction L with
  | nil => rfl
  | cons c rest ih =>
    simp only [List.flatten_cons, matchPairs_append, ih, List.all_cons]

theorem nodup_of_dedup_length {l : List String}
    (h : l.dedup.length = l.length) : l.Nodup := by
  have hsub : l.dedup.Sublist l := List.dedup_sublist l
  have heq : l.dedup = l := hsub.eq_of_length h
  rw [← heq]
  exact List.nodup_dedup l

/-- C5: the `$and` simplification of `_query` preserves matching
semantics on every query; under the no-collision key condition the
`$and` clause is flattened into the single conjunction map that is the
union of parent pairs and all children pairs, and when the condition
fails the `$and` clause is left nested unchanged. -/
theorem and_flatten_c5 (q : MongoQuery) :
    (∀ doc, matchQuery doc (simplifyAnd q) = matchQuery doc q) ∧
    (∀ children, q.andClause = some children →
      (((q.pairs.map Prod.fst
          ++ (children.map (fun c => c.map Prod.fst)).flatten).dedup.length
         = (q.pairs.map Prod.fst).length
           + ((children.map (fun c => c.map Prod.fst)).flatten).length →
        simplifyAnd q
          = { pairs := q.pairs ++ children.flatten,
              andClause := Option.none }) ∧
       (¬ ((q.pairs.map Prod.fst
          ++ (children.map (fun c => c.map Prod.fst)).flatten).dedup.length
         = (q.pairs.map Prod.fst).length
           + ((children.map (fun c => c.map Prod.fst)).flatten).length) →
        simplifyAnd q = q))) := by
  have hflat : ∀ children, q.andClause = some children →
      ((q.pairs.map Prod.fst
          ++ (children.map (fun c => c.map Prod.fst)).flatten).dedup.length
        = (q.pairs.map Prod.fst).length
          + ((children.map (fun c => c.map Prod.fst)).flatten).length) →
      simplifyAnd q
        = { pairs := q.pairs ++ children.flatten,
            andClause := Option.none } := by
    intro children hand hcond
    have hnd : (q.pairs.map Prod.fst
        ++ (children.map (fun c => c.map Prod.fst)).flatten).Nodup := by
      apply nodup_of_dedup_length
      rw [hcond, List.length_append]
    have hfold : children.foldl dictUpdate q.pairs
        = q.pairs ++ children.flatten := by
      apply foldl_dictUpdate_eq hnd.of_append_right
      intro k hk hkp
      exact (List.disjoint_of_nodup_append hnd) hkp hk
    rw [simplifyAnd, hand]
    simp only [hcond, List.length_append, if_pos rfl, hfold]
    simp
  have hnest : ∀ children, q.andClause = some children →
      ¬ ((q.pairs.map Prod.fst
          ++ (children.map (fun c => c.map Prod.fst)).flatten).dedup.length
        = (q.pairs.map Prod.fst).length
          + ((children.map (fun c => c.map Prod.fst)).flatten).length) →
      simplifyAnd q = q := by
    intro children hand hcond
    rw [simplifyAnd, hand]
    simp only [if_neg hcond]
  refine ⟨?_, fun children hand => ⟨hflat children hand, hnest children hand⟩⟩
  intro doc
  match hand : q.andClause with
  | Option.none =>
    rw [simplifyAnd, hand]
  | some children =>
    by_cases hcond : ((q.pairs.map Prod.fst
        ++ (children.map (fun c => c.map Prod.fst)).flatten).dedup.length
      = (q.pairs.map Prod.fst).length
        + ((children.map (fun c => c.map Prod.fst)).flatten).length)
    · rw [hflat children hand hcond]
      rw [matchQuery, matchQuery, hand]
      simp only [matchPairs_append, matchPairs_flatten]
      simp [Bool.and_assoc]
    · rw [hnest children hand hcond]

/-- C5 witness: a query with parent key `a` and `$and` children over the
disjoint keys `b`, `c` flattens to the union map and matches a sample
document identically; a query whose child collides on `a` is left
nested. -/
theorem and_flatten_c5_witness :
    simplifyAnd
        { pairs := [("a", PyVal.int 1)],
          andClause := some [[("b", PyVal.int 2)], [("c", PyVal.int 3)]] }
      = { pairs := [("a", PyVal.int 1), ("b", PyVal.int 2),
                    ("c", PyVal.int 3)],
          andClause := Option.none } ∧
    matchQuery [("a", PyVal.int 1), ("b", PyVal.int 2), ("c", PyVal.int 3)]
        (simplifyAnd
          { pairs := [("a", PyVal.int 1)],
            andClause := some [[("b", PyVal.int 2)], [("c", PyVal.int 3)]] })
      = matchQuery [("a", PyVal.int 1), ("b", PyVal.int 2),
                    ("c", PyVal.int 3)]
          { pairs := [("a", PyVal.int 1)],
            andClause := some [[("b", PyVal.int 2)], [("c", PyVal.int 3)]] } ∧
    simplifyAnd
        { pairs := [("a", PyVal.int 1)],
          andClause := some [[("a", PyVal.int 2)]] }
      = { pairs := [("a", PyVal.int 1)],
          andClause := some [[("a", PyVal.int 2)]] } := by
  refine ⟨?_, ?_, ?_⟩
  · exact ((and_flatten_c5
      { pairs := [("a", PyVal.int 1)],
        andClause := some [[("b", PyVal.int 2)], [("c", PyVal.int 3)]] }).2
      _ rfl).1 (by decide)
  · exact (and_flatten_c5
      { pairs := [("a", PyVal.int 1)],
        andClause := some [[("b", PyVal.int 2)], [("c", PyVal.int 3)]] }).1 _
  · exact ((and_flatten_c5
      { pairs := [("a", PyVal.int 1)],
        andClause := some [[("a", PyVal.int 2)]] }).2 _ rfl).2 (by decide)

end Mongo.Qsimp

namespace Mongo.Delta

open Mongo

/-- Every entry of the tentative set map carries the value the live
document holds at its path. -/
theorem setDataOf_value {doc : DeltaDoc} {p : String} {w : PyVal}
    (h : (p, w) ∈ setDataOf doc) :
    w = (dictGet doc.values p).getD PyVal.none := by
  rw [setDataOf, List.mem_map] at h
  obtain ⟨a, _, ha⟩ := h
  obtain ⟨h1, h2⟩ := Prod.mk.injEq .. ▸ ha
  rw [← h2, h1]

/-- In the second delta phase, a falsy non-numeric path whose value
equals its resolved default is dropped from the set map and emitted in
the unset map. -/
theorem phase2_key_unset {doc : DeltaDoc} {p : String} {v : PyVal}
    (hf : v.truthy = false) (hn : v.isNumOrBool = false)
    (hd : defaultFor doc p = v) :
    ∀ L : PyDict, (∀ w, (p, w) ∈ L → w = v) →
      p ∉ (deltaPhase2 doc L).1.map Prod.fst ∧
      ((p, v) ∈ L → (p, 1) ∈ (deltaPhase2 doc L).2) := by
  intro L
  induction L with
  | nil =>
    intro _
    exact ⟨by simp [deltaPhase2], by simp⟩
  | cons kv rest ih =>
    intro huniq
    obtain ⟨q, w⟩ := kv
    have hrest := ih (fun w' hw' => huniq w' (List.mem_cons_of_mem _ hw'))
    have hmemrest : (p, v) ∈ (q, w) :: rest → q ≠ p → (p, v) ∈ rest := by
      intro hm hq
      rcases List.mem_cons.mp hm with hm | hm
      · exact absurd (congrArg Prod.fst hm).symm hq
      · exact hm
    simp only [deltaPhase2]
    split
    · rename_i hc1
      by_cases hq : q = p
      · exfalso
        have hw : w = v := huniq w (by rw [hq]; exact List.mem_cons_self _ _)
        rw [hw, hf, hn] at hc1
        simp at hc1
      · refine ⟨?_, fun hm => hrest.2 (hmemrest hm hq)⟩
        simp only [List.map_cons, List.mem_cons, not_or]
        exact ⟨fun h => hq h.symm, hrest.1⟩
    · split
      · rename_i hc1 hc2
        by_cases hq : q = p
        · exfalso
          have hw : w = v :=
            huniq w (by rw [hq]; exact List.mem_cons_self _ _)
          rw [hq, hw] at hc2
          exact hc2 hd
        · refine ⟨?_, fun hm => hrest.2 (hmemrest hm hq)⟩
          simp only [List.map_cons, List.mem_cons, not_or]
          exact ⟨fun h => hq h.symm, hrest.1⟩
      · refine ⟨hrest.1, fun hm => ?_⟩
        by_cases hq : q = p
        · rw [hq]
          exact List.mem_cons_self _ _
        · exact List.mem_cons_of_mem _ (hrest.2 (hmemrest hm hq))

/-- In the second delta phase, a path whose value differs from its
resolved default is kept in the set map and never emitted in the unset
map. -/
theorem phase2_key_set {doc : DeltaDoc} {p : String} {v : PyVal}
    (hd : defaultFor doc p ≠ v) :
    ∀ L : PyDict, (∀ w, (p, w) ∈ L → w = v) →
      p ∉ (deltaPhase2 doc L).2.map Prod.fst ∧
      ((p, v) ∈ L → (p, v) ∈ (deltaPhase2 doc L).1) := by
  intro L
  induction L with
  | nil =>
    intro _
    exact ⟨by simp [deltaPhase2], by simp⟩
  | cons kv rest ih =>
    intro huniq
    obtain ⟨q, w⟩ := kv
    have hrest := ih (fun w' hw' => huniq w' (List.mem_cons_of_mem _ hw'))
    have hmemrest : (p, v) ∈ (q, w) :: rest → q ≠ p → (p, v) ∈ rest := by
      intro hm hq
      rcases List.mem_cons.mp hm with hm | hm
      · exact absurd (congrArg Prod.fst hm).symm hq
      · exact hm
    simp only [deltaPhase2]
    split
    · refine ⟨hrest.1, fun hm => ?_⟩
      by_cases hq : q = p
      · have hw : w = v := huniq w (by rw [hq]; exact List.mem_cons_self _ _)
        rw [hq, hw]
        exact List.mem_cons_self _ _
      · exact List.mem_cons_of_mem _ (hrest.2 (hmemrest hm hq))
    · split
      · refine ⟨hrest.1, fun hm => ?_⟩
        by_cases hq : q = p
        · have hw : w = v :=
            huniq w (by rw [hq]; exact List.mem_cons_self _ _)
          rw [hq, hw]
          exact List.mem_cons_self _ _
        · exact List.mem_cons_of_mem _ (hrest.2 (hmemrest hm hq))
      · rename_i hc1 hc2
        by_cases hq : q = p
        · exfalso
          have hw : w = v :=
            huniq w (by rw [hq]; exact List.mem_cons_self _ _)
          rw [hq, hw] at hc2
          exact hc2 hd
        · refine ⟨?_, fun hm => hrest.2 (hmemrest hm hq)⟩
          simp only [List.map_cons, List.mem_cons, not_or]
          exact ⟨fun h => hq h.symm, hrest.1⟩

/-- C4: in `_delta`, an explicitly changed path whose current value is
falsy and not a number/bool is emitted in the unset map with value 1 and
omitted from the set map exactly when the value equals the resolved
default of the field (a callable default being called first); a falsy value
differing from the resolved default stays in the set map and never
reaches the unset map. -/
theorem delta_default_unset_c4 (doc : DeltaDoc) (p : String) (v : PyVal)
    (hmem : (p, v) ∈ setDataOf doc)
    (hf : v.truthy = false) (hn : v.isNumOrBool = false) :
    (defaultFor doc p = v →
      (p, 1) ∈ (delta doc).2 ∧ p ∉ (delta doc).1.map Prod.fst) ∧
    (defaultFor doc p ≠ v →
      (p, v) ∈ (delta doc).1 ∧ p ∉ (delta doc).2.map Prod.fst) := by
  have huniq : ∀ w, (p, w) ∈ setDataOf doc → w = v := by
    intro w hw
    rw [setDataOf_value hw, ← setDataOf_value hmem]
  constructor
  · intro hd
    have h := phase2_key_unset hf hn hd (setDataOf doc) huniq
    exact ⟨h.2 hmem, h.1⟩
  · intro hd
    have h := phase2_key_set hd (setDataOf doc) huniq
    exact ⟨h.2 hmem, h.1⟩

/-- C4 witness: a document with two string fields, `name` defaulting to
the empty string and `nick` defaulting to `"x"`, both explicitly changed
to the empty string: `name` (falsy and equal to its default) is unset,
`nick` (falsy but different from its default) stays set. -/
theorem delta_default_unset_c4_witness :
    (("name", 1) ∈ (delta
        { fields := [("name", PyDefault.plain (PyVal.str "")),
                     ("nick", PyDefault.plain (PyVal.str "x"))],
          values := [("name", PyVal.str ""), ("nick", PyVal.str "")],
          changed := ["name", "nick"] }).2 ∧
      "name" ∉ (delta
        { fields := [("name", PyDefault.plain (PyVal.str "")),
                     ("nick", PyDefault.plain (PyVal.str "x"))],
          values := [("name", PyVal.str ""), ("nick", PyVal.str "")],
          changed := ["name", "nick"] }).1.map Prod.fst) ∧
    (("nick", PyVal.str "") ∈ (delta
        { fields := [("name", PyDefault.plain (PyVal.str "")),
                     ("nick", PyDefault.plain (PyVal.str "x"))],
          values := [("name", PyVal.str ""), ("nick", PyVal.str "")],
          changed := ["name", "nick"] }).1 ∧
      "nick" ∉ (delta
        { fields := [("name", PyDefault.plain (PyVal.str "")),
                     ("nick", PyDefault.plain (PyVal.str "x"))],
          values := [("name", PyVal.str ""), ("nick", PyVal.str "")],
          changed := ["name", "nick"] }).2.map Prod.fst) := by
  constructor
  · exact (delta_default_unset_c4
      { fields := [("name", PyDefault.plain (PyVal.str "")),
                   ("nick", PyDefault.plain (PyVal.str "x"))],
        values := [("name", PyVal.str ""), ("nick", PyVal.str "")],
        changed := ["name", "nick"] }
      "name" (PyVal.str "") (by decide) rfl rfl).1 (by decide)
  · exact (delta_default_unset_c4
      { fields := [("name", PyDefault.plain (PyVal.str "")),
                   ("nick", PyDefault.plain (PyVal.str "x"))],
        values := [("name", PyVal.str ""), ("nick", PyVal.str "")],
        changed := ["name", "nick"] }
      "nick" (PyVal.str "") (by decide) rfl rfl).2 (by decide)

end Mongo.Delta

namespace Mongo.Lookup

/-- C6: field lookup surfaces `LookUpError` when the first segment names
no declared field; it surfaces the join `LookUpError` when the path
traverses onward through a reference-type field; it surfaces
`LookUpError` when a member cannot be resolved against an embedded
sub-schema; and the scenario paths behave as specified —
`address.zipcode` resolves through the embedded schema while `ref.name`
is refused as a join. -/
theorem lookup_field_errors_c6 :
    (∀ (schema : List (String × FieldTy)) (idField n : String)
        (rest : List String),
      isDigitSeg n = false →
      (schema.find? (fun kv => kv.1 == (if n == "pk" then idField else n))).map
          (fun kv => kv.2) = Option.none →
      lookupField schema idField (n :: rest)
        = Except.error (LookupErr.cannotResolve
            (if n == "pk" then idField else n))) ∧
    (∀ (schema : List (String × FieldTy)) (idField r n : String)
        (rest : List String) (f : FieldTy),
      isDigitSeg r = false → isDigitSeg n = false →
      (schema.find? (fun kv => kv.1 == (if r == "pk" then idField else r))).map
          (fun kv => kv.2) = some f →
      isRef f = true →
      lookupField schema idField (r :: n :: rest)
        = Except.error (LookupErr.joinError (joinParts (r :: n :: rest)))) ∧
    (∀ (schema : List (String × FieldTy)) (idField a n : String)
        (sub : List (String × FieldTy)),
      isDigitSeg a = false → isDigitSeg n = false →
      (schema.find? (fun kv => kv.1 == (if a == "pk" then idField else a))).map
          (fun kv => kv.2) = some (FieldTy.embedded sub) →
      (sub.find? (fun kv => kv.1 == n)).map (fun kv => kv.2) = Option.none →
      lookupField schema idField [a, n]
        = Except.error (LookupErr.cannotResolve n)) ∧
    lookupField Scenario.addressSchema "id" ["address", "zipcode"]
      = Except.ok
          [LookupEntry.fld (FieldTy.embedded [("zipcode", FieldTy.basic)]),
           LookupEntry.fld FieldTy.basic] ∧
    lookupField Scenario.addressSchema "id" ["ref", "name"]
      = Except.error (LookupErr.joinError "ref__name") := by
  refine ⟨?_, ?_, ?_, rfl, rfl⟩
  · intro schema idField n rest hdig hfind
    simp only [lookupField, lookupGo, hdig, Bool.false_eq_true, if_false,
      hfind]
  · intro schema idField r n rest f hdr hdn hfind href
    have hstep1 : lookupField schema idField (r :: n :: rest)
        = lookupGo schema idField (joinParts (r :: n :: rest)) (n :: rest)
            (some f) ([] ++ [LookupEntry.fld f]) := by
      simp only [lookupField, lookupGo, hdr, Bool.false_eq_true, if_false,
        hfind]
    rw [hstep1]
    cases f
    case reference =>
      simp only [lookupGo, hdn, Bool.false_eq_true, if_false, isRef, if_true]
    case genericReference =>
      simp only [lookupGo, hdn, Bool.false_eq_true, if_false, isRef, if_true]
    all_goals simp [isRef] at href
  · intro schema idField a n sub hda hdn hfind hsub
    simp only [lookupField, lookupGo, hda, hdn, Bool.false_eq_true, if_false,
      hfind, hsub, isRef, fieldAttrHasLookup, lookupMember, isComplex]

/-- C6 witness: concrete instantiations — an unknown first segment, a
path through a reference field, and an unknown embedded member, on the
scenario schema. -/
theorem lookup_field_errors_c6_witness :
    lookupField Scenario.addressSchema "id" ["nope"]
      = Except.error (LookupErr.cannotResolve "nope") ∧
    lookupField Scenario.addressSchema "id" ["ref", "name", "deep"]
      = Except.error (LookupErr.joinError "ref__name__deep") ∧
    lookupField Scenario.addressSchema "id" ["address", "city"]
      = Except.error (LookupErr.cannotResolve "city") := by
  refine ⟨?_, ?_, ?_⟩
  · have h := lookup_field_errors_c6.1 Scenario.addressSchema "id" "nope" []
      rfl rfl
    simpa using h
  · exact lookup_field_errors_c6.2.1 Scenario.addressSchema "id" "ref" "name"
      ["deep"] FieldTy.reference rfl rfl rfl rfl
  · exact lookup_field_errors_c6.2.2.1 Scenario.addressSchema "id" "address"
      "city" [("zipcode", FieldTy.basic)] rfl rfl rfl rfl

end Mongo.Lookup

namespace Mongo.Del

/-- C2: when the cascade resolver runs (the call is not delegated to the
per-document loop) and some registered DENY rule has at least one related
document referencing a matched identity, `delete` aborts with
`OperationError` during the first pass, before the mutating pass and the
bulk delete — the database it reports is exactly the input database, so
no document in any collection is mutated. -/
theorem delete_deny_aborts_c2 (db : DB) (matched : List Nat)
    (skip limit : Option Int) (hasDeleteSignal fromDocDelete : Bool)
    (hpath : ((Engine.optIntTruthy skip || Engine.optIntTruthy limit
        || hasDeleteSignal) && !fromDocDelete) = false)
    (e : RelEntry) (he : e ∈ db.rels) (hrule : e.rule = Rule.deny)
    (href : 0 < refCount matched e) :
    ∃ err, deleteQS db matched skip limit hasDeleteSignal fromDocDelete
        = DeleteOutcome.denied db err := by
  have hfind : (db.rels.find? (fun e2 =>
      e2.rule == Rule.deny && decide (0 < refCount matched e2))).isSome := by
    rw [List.find?_isSome]
    exact ⟨e, he, by simp [hrule, href]⟩
  obtain ⟨e2, he2⟩ := Option.isSome_iff_exists.mp hfind
  refine ⟨Engine.OpError.operationError
      ("Could not delete document (" ++ e2.clsName ++ "." ++ e2.fieldName
        ++ " refers to it)"), ?_⟩
  simp only [deleteQS, hpath, Bool.false_eq_true, if_false, he2]

/-- C2 witness: the Author/Book DENY scenario — a Book references matched
author 2, so deleting authors 1 and 2 is denied with the database
untouched. -/
theorem delete_deny_aborts_c2_witness :
    ∃ err, deleteQS Scenario.denyDB [2] Option.none Option.none false false
        = DeleteOutcome.denied Scenario.denyDB err :=
  delete_deny_aborts_c2 Scenario.denyDB [2] Option.none Option.none false
    false rfl
    { clsName := "Book", fieldName := "author", rule := Rule.deny,
      isSelf := false, refDocs := [{ id := 7, refs := [2] }] }
    (by decide) rfl (by decide)

end Mongo.Del

namespace Mongo.Changed

open Mongo

/-- C7 counterexample: the claim that `_get_changed_fields` terminates on
every cyclic embedded-document graph is false on the code — the visited
set is keyed on the `id` attribute, so an id-less embedded document
embedded in itself is recursed into forever (no fuel suffices). -/
theorem changed_fields_c7_counterexample :
    ¬ ∃ fuel cs, getChangedFields Scenario.cycStore fuel 0 = some cs := by
  have key : ∀ fuel insp,
      runDoc Scenario.cycStore fuel 0 insp = Option.none := by
    intro fuel
    induction fuel with
    | zero => intro insp; rw [runDoc]
    | succ f ih =>
      intro insp
      rw [runDoc]
      have hnode : Scenario.cycStore.nodes[0]? = some
          { idAttr := Option.none, changed := ["x"],
            flds := [("self", FieldRef.emb 0)] } := rfl
      rw [hnode]
      dsimp only
      rw [runFields]
      have hguard : (Scenario.cycStore.nodes[0]?).bind (fun c => c.idAttr)
          = Option.none := rfl
      rw [hguard]
      dsimp only
      rw [if_neg (by decide : ¬((["x"].contains "self") = true)), ih insp]
  rintro ⟨fuel, cs, h⟩
  rw [getChangedFields, key fuel []] at h
  exact Option.noConfusion h

theorem countP_insert_lt {i : Nat} {insp : List Nat} (hni : i ∉ insp) :
    ∀ l : List Nat, i ∈ l →
      l.countP (fun j => decide (j ∉ i :: insp))
        < l.countP (fun j => decide (j ∉ insp)) := by
  intro l
  induction l with
  | nil => intro h; cases h
  | cons a t ih =>
    intro hmem
    rw [List.countP_cons, List.countP_cons]
    have hle : t.countP (fun j => decide (j ∉ i :: insp))
        ≤ t.countP (fun j => decide (j ∉ insp)) := by
      apply List.countP_mono_left
      intro j _ hj
      simp only [decide_eq_true_eq, List.mem_cons, not_or] at hj ⊢
      exact hj.2
    by_cases hai : a = i
    · subst hai
      have h1 : (decide (a ∉ a :: insp)) = false := by simp
      have h2 : (decide (a ∉ insp)) = true := by simpa using hni
      rw [h1, h2]
      simp only [Bool.false_eq_true, if_false, if_true]
      omega
    · rcases List.mem_cons.mp hmem with h | h
      · exact absurd h.symm hai
      · have ht := ih h
        have hc : (decide (a ∉ i :: insp)) = (decide (a ∉ insp)) := by
          apply decide_eq_decide.mpr
          constructor
          · intro hno hmem2
            exact hno (List.mem_cons_of_mem _ hmem2)
          · intro hno hmem2
            rcases List.mem_cons.mp hmem2 with h1 | h1
            · exact hai h1
            · exact hno h1
        rw [hc]
        split <;> omega

theorem newIds_insert_lt (st : Store) {i : Nat} {insp : List Nat}
    (hin : i ∈ idsOf st) (hni : i ∉ insp) :
    newIds st (i :: insp) < newIds st insp :=
  countP_insert_lt hni (idsOf st) hin

theorem newIds_mono (st : Store) {insp insp2 : List Nat}
    (h : insp ⊆ insp2) : newIds st insp2 ≤ newIds st insp := by
  apply List.countP_mono_left
  intro i _ hp
  simp only [decide_eq_true_eq] at hp ⊢
  exact fun hmem => hp (h hmem)

theorem mem_of_nodes_get {l : List DocNode} {ix : Nat} {a : DocNode}
    (h : l[ix]? = some a) : a ∈ l := by
  obtain ⟨hlt, heq⟩ := List.getElem?_eq_some.mp h
  exact heq ▸ List.getElem_mem hlt

/-- When every node of the store carries an id attribute, the traversal
returns within fuel exceeding the number of uninspected ids, and the
inspected set only grows. -/
theorem runDoc_total (st : Store)
    (ha : ∀ node ∈ st.nodes, node.idAttr.isSome) :
    ∀ fuel ix insp, newIds st insp < fuel →
      ∃ cs insp2, runDoc st fuel ix insp = some (cs, insp2) ∧
        insp ⊆ insp2 := by
  intro fuel
  induction fuel using Nat.strong_induction_on with
  | _ fuel IH =>
  cases fuel with
  | zero => intro ix insp h; omega
  | succ g =>
    have hPg : ∀ ix insp, newIds st insp < g →
        ∃ cs insp2, runDoc st g ix insp = some (cs, insp2) ∧
          insp ⊆ insp2 :=
      IH g (by omega)
    have hRg : ∀ (ixs : List Nat) (idx : Nat) (fname : String)
        (acc : List String) (insp : List Nat), newIds st insp < g →
        ∃ cs insp2, runList st g fname idx ixs acc insp = some (cs, insp2) ∧
          insp ⊆ insp2 := by
      intro ixs
      induction ixs with
      | nil =>
        intro idx fname acc insp _
        exact ⟨acc, insp, by rw [runList], fun x hx => hx⟩
      | cons cix rest ihl =>
        intro idx fname acc insp hlt
        obtain ⟨cs1, insp1, heq1, hsub1⟩ := hPg cix insp hlt
        have hlt1 : newIds st insp1 < g :=
          lt_of_le_of_lt (newIds_mono st hsub1) hlt
        obtain ⟨cs2, insp2, heq2, hsub2⟩ := ihl (idx + 1) fname
          (acc ++ (cs1.filter (fun k => !(k == ""))).map
            (fun k => fname ++ "." ++ toString idx ++ "." ++ k)) insp1 hlt1
        refine ⟨cs2, insp2, ?_, fun x hx => hsub2 (hsub1 hx)⟩
        rw [runList, heq1]
        exact heq2
    have hQg : ∀ (flds : List (String × FieldRef)) (acc : List String)
        (insp : List Nat), newIds st insp < g →
        ∃ cs insp2, runFields st g flds acc insp = some (cs, insp2) ∧
          insp ⊆ insp2 := by
      intro flds
      induction flds with
      | nil =>
        intro acc insp _
        exact ⟨acc, insp, by rw [runFields], fun x hx => hx⟩
      | cons fld rest ihf =>
        intro acc insp hlt
        obtain ⟨fname, fref⟩ := fld
        cases fref with
        | plainV v =>
          obtain ⟨cs2, insp2, heq2, hsub2⟩ := ihf acc insp hlt
          refine ⟨cs2, insp2, ?_, hsub2⟩
          rw [runFields]
          exact heq2
        | emb cix =>
          rcases hguard : (st.nodes[cix]?).bind (fun c => c.idAttr)
            with _ | i
          · by_cases hacc : acc.contains fname = true
            · obtain ⟨cs2, insp2, heq2, hsub2⟩ := ihf acc insp hlt
              refine ⟨cs2, insp2, ?_, hsub2⟩
              rw [runFields, hguard]
              dsimp only
              rw [if_pos hacc]
              exact heq2
            · obtain ⟨cs1, insp1, heq1, hsub1⟩ := hPg cix insp hlt
              have hlt1 : newIds st insp1 < g :=
                lt_of_le_of_lt (newIds_mono st hsub1) hlt
              obtain ⟨cs2, insp2, heq2, hsub2⟩ := ihf
                (acc ++ (cs1.filter (fun k => !(k == ""))).map
                  (fun k => fname ++ "." ++ k)) insp1 hlt1
              refine ⟨cs2, insp2, ?_, fun x hx => hsub2 (hsub1 hx)⟩
              rw [runFields, hguard]
              dsimp only
              rw [if_neg hacc, heq1]
              exact heq2
          · by_cases hin : i ∈ insp
            · obtain ⟨cs2, insp2, heq2, hsub2⟩ := ihf acc insp hlt
              refine ⟨cs2, insp2, ?_, hsub2⟩
              rw [runFields, hguard]
              dsimp only
              rw [if_pos hin]
              exact heq2
            · have hiIds : i ∈ idsOf st := by
                obtain ⟨child, hc1, hc2⟩ := Option.bind_eq_some.mp hguard
                rw [idsOf, List.mem_dedup]
                exact List.mem_filterMap.mpr
                  ⟨child, mem_of_nodes_get hc1, hc2⟩
              have hlt1 : newIds st (i :: insp) < g :=
                lt_trans (newIds_insert_lt st hiIds hin) hlt
              by_cases hacc : acc.contains fname = true
              · obtain ⟨cs2, insp2, heq2, hsub2⟩ := ihf acc (i :: insp) hlt1
                refine ⟨cs2, insp2, ?_,
                  fun x hx => hsub2 (List.mem_cons_of_mem _ hx)⟩
                rw [runFields, hguard]
                dsimp only
                rw [if_neg hin, if_pos hacc]
                exact heq2
              · obtain ⟨cs1, insp1, heq1, hsub1⟩ := hPg cix (i :: insp) hlt1
                have hlt2 : newIds st insp1 < g :=
                  lt_of_le_of_lt (newIds_mono st hsub1) hlt1
                obtain ⟨cs2, insp2, heq2, hsub2⟩ := ihf
                  (acc ++ (cs1.filter (fun k => !(k == ""))).map
                    (fun k => fname ++ "." ++ k)) insp1 hlt2
                refine ⟨cs2, insp2, ?_, fun x hx =>
                  hsub2 (hsub1 (List.mem_cons_of_mem _ hx))⟩
                rw [runFields, hguard]
                dsimp only
                rw [if_neg hin, if_neg hacc, heq1]
                exact heq2
        | lst cixs =>
          by_cases hacc : acc.contains fname = true
          · obtain ⟨cs2, insp2, heq2, hsub2⟩ := ihf acc insp hlt
            refine ⟨cs2, insp2, ?_, hsub2⟩
            rw [runFields]
            rw [if_pos hacc]
            exact heq2
          · obtain ⟨cs1, insp1, heq1, hsub1⟩ := hRg cixs 0 fname acc insp hlt
            have hlt1 : newIds st insp1 < g :=
              lt_of_le_of_lt (newIds_mono st hsub1) hlt
            obtain ⟨cs2, insp2, heq2, hsub2⟩ := ihf cs1 insp1 hlt1
            refine ⟨cs2, insp2, ?_, fun x hx => hsub2 (hsub1 hx)⟩
            rw [runFields]
            rw [if_neg hacc, heq1]
            exact heq2
    intro ix insp hlt
    rcases hnode : st.nodes[ix]? with _ | node
    · refine ⟨[], insp, ?_, fun x hx => hx⟩
      rw [runDoc, hnode]
    · obtain ⟨i, hi⟩ := Option.isSome_iff_exists.mp (ha node
        (mem_of_nodes_get hnode))
      by_cases hin : i ∈ insp
      · refine ⟨node.changed, insp, ?_, fun x hx => hx⟩
        rw [runDoc, hnode]
        dsimp only
        rw [hi]
        dsimp only
        rw [if_pos hin]
      · have hiIds : i ∈ idsOf st := by
          rw [idsOf, List.mem_dedup]
          exact List.mem_filterMap.mpr
            ⟨node, mem_of_nodes_get hnode, hi⟩
        have hlt1 : newIds st (i :: insp) < g := by
          have := newIds_insert_lt st hiIds hin
          omega
        obtain ⟨cs2, insp2, heq2, hsub2⟩ :=
          hQg node.flds node.changed (i :: insp) hlt1
        refine ⟨cs2, insp2, ?_,
          fun x hx => hsub2 (List.mem_cons_of_mem _ hx)⟩
        rw [runDoc, hnode]
        dsimp only
        rw [hi]
        dsimp only
        rw [if_neg hin]
        exact heq2

/-- C7 (amended): `_get_changed_fields` terminates on every
embedded-document graph, cyclic ones included, provided every embedded
document in the store carries an `id` attribute: the per-call visited set
of id values ensures no id-bearing document is recursed into twice.  (An
id-less cyclic graph diverges — the guard never fires, see the
counterexample.) -/
theorem changed_fields_terminates_c7 (st : Store)
    (ha : ∀ node ∈ st.nodes, node.idAttr.isSome) (ix : Nat) :
    ∃ fuel cs, getChangedFields st fuel ix = some cs := by
  obtain ⟨cs, insp2, heq, _⟩ :=
    runDoc_total st ha (newIds st [] + 1) ix [] (by omega)
  exact ⟨newIds st [] + 1, cs, by rw [getChangedFields, heq]; rfl⟩

/-- C7 witness: the two-node cyclic graph with id attributes (including a
list of embedded documents closing the cycle) terminates. -/
theorem changed_fields_terminates_c7_witness :
    ∃ fuel cs, getChangedFields Scenario.cycIdStore fuel 0 = some cs :=
  changed_fields_terminates_c7 Scenario.cycIdStore (by decide) 0

end Mongo.Changed
